import Mathlib

/-!
Verification of the Saros DLMM copilot's two algorithmic cores against their
specification: the band/rebalance planner of the strategy service
(`computeTargetBins`, `buildAdvancedBins`, the `/rebalance/plan` handler and
its error mapping `mapResult` / `statusByError`) and the CSV-driven backtest
simulator of the analytics page (`toMillis`, `runBacktest`, `handleCsvUpload`).

Modelling conventions:
* JavaScript `number` values are modelled as rationals (`ℚ`).  NaN and the
  infinities are outside the model, so `Number.isFinite` guards are
  identically true and noted where they occur.
* Asynchronous gateway calls (`currentMidPrice`, `priceToBinIndex`) are
  modelled as pure functions returning a tagged result, matching the
  `Result<T> = {ok,value} | {ok:false,error,detail?}` shape of the core
  package; the handlers are parameterised over them.
* A handler that sends an RFC-7807 problem and returns `undefined` is
  modelled as `Except ProblemDetail`.
-/

namespace DLMM

/-- Shape `Result<T>` of the core package: `{ ok: true, value }` or
`{ ok: false, error, detail? }` where `error` is one of the `DomainError`
string tags. -/
inductive GwResult (T : Type) where
  | ok (value : T)
  | err (error : String) (detail : Option String)
deriving Repr, DecidableEq

/-- Type `ProblemDetail` from `utils/problem.ts`. -/
structure ProblemDetail where
  type : String
  title : String
  status : Int
  detail : Option String
  code : Option String
deriving Repr, DecidableEq

/-- Constant `defaultProblemType` from `utils/problem.ts`. -/
def defaultProblemType : String := "https://datatracker.ietf.org/doc/html/rfc7807"

/-- The `statusByError` record of `routes/strategy`: HTTP status for each
`DomainError` tag; `none` for a tag outside the record (the source then falls
back to 500 via `?? 500`). -/
def statusByError : String → Option Int
  | "InvalidInput" => some 400
  | "NotFound" => some 404
  | "RateLimited" => some 429
  | "RpcError" => some 502
  | "SdkError" => some 502
  | _ => none

/-- Function `mapResult` of `routes/strategy`: unwrap a gateway result, or send a
problem built from the gateway error (`status = statusByError[error] ?? 500`,
`detail` and `code` taken from the result unchanged) and return `undefined`.
All call sites relevant here pass only a `title` in the context, so
`type` is always `defaultProblemType`. -/
def mapResult {T : Type} (result : GwResult T) (title : String) :
    Except ProblemDetail T :=
  match result with
  | .ok v => .ok v
  | .err e detail =>
      .error { type := defaultProblemType
               title := title
               status := (statusByError e).getD 500
               detail := detail
               code := some e }

/-- The record returned by a successful `computeTargetBins`. -/
structure BandTarget where
  binLower : Int
  binUpper : Int
  currentBin : Int
deriving Repr, DecidableEq

/-- Function `computeTargetBins` of `routes/strategy`, parameterised over the
`priceToBinIndex` gateway (pool and price to tagged bin index). -/
def computeTargetBins (priceToBin : String → ℚ → GwResult Int)
    (pool : String) (midPrice : ℚ) (bandBps : Int) :
    Except ProblemDetail BandTarget :=
  let ratio : ℚ := (bandBps : ℚ) / 10000
  let lowerPrice := midPrice * (1 - ratio)
  let upperPrice := midPrice * (1 + ratio)
  match mapResult (priceToBin pool midPrice) "Failed to determine active bin" with
  | .error p => .error p
  | .ok currentBin =>
    match mapResult (priceToBin pool lowerPrice) "Failed to compute lower band bin" with
    | .error p => .error p
    | .ok lowerBin =>
      match mapResult (priceToBin pool upperPrice) "Failed to compute upper band bin" with
      | .error p => .error p
      | .ok upperBin =>
          .ok { binLower := min lowerBin upperBin
                binUpper := max lowerBin upperBin
                currentBin := currentBin }

/-- Body of a successful `POST /rebalance/plan` response. -/
structure PlanResponse where
  inBand : Bool
  binLower : Int
  binUpper : Int
  midPrice : ℚ
  binIndex : Int
deriving Repr, DecidableEq

/-- The `POST /rebalance/plan` handler after request validation: fetch the
mid price, compute the target bins, and report
`inBand = currentBin >= binLower && currentBin <= binUpper`. -/
def rebalancePlan (gwMidPrice : String → GwResult ℚ)
    (priceToBin : String → ℚ → GwResult Int)
    (pool : String) (bandBps : Int) : Except ProblemDetail PlanResponse :=
  match mapResult (gwMidPrice pool) "Failed to fetch mid price" with
  | .error p => .error p
  | .ok midPrice =>
    match computeTargetBins priceToBin pool midPrice bandBps with
    | .error p => .error p
    | .ok band =>
        .ok { inBand := decide (band.currentBin ≥ band.binLower) &&
                        decide (band.currentBin ≤ band.binUpper)
              binLower := band.binLower
              binUpper := band.binUpper
              midPrice := midPrice
              binIndex := band.currentBin }

/-- The `AdvancedKind` enum of `schemas/advancedOrders.ts`. -/
inductive AdvancedKind where
  | limitBuy
  | limitSell
  | stopLoss
deriving Repr, DecidableEq

/-- The `coreBins` candidate list of `buildAdvancedBins`. -/
def advancedCoreBins (kind : AdvancedKind) (baseIndex : Int) : List Int :=
  if kind = AdvancedKind.limitSell then
    [baseIndex, baseIndex + 1, baseIndex + 2]
  else
    [baseIndex, baseIndex - 1, baseIndex - 2]

/-- First-occurrence deduplication, the behaviour of
`Array.from(new Set(xs))` in the source. -/
def jsSetDedupAux (acc : List Int) : List Int → List Int
  | [] => acc
  | b :: rest => jsSetDedupAux (if b ∈ acc then acc else acc ++ [b]) rest

/-- Behaviour of `Array.from(new Set(xs))`. -/
def jsSetDedup (xs : List Int) : List Int := jsSetDedupAux [] xs

/-- Function `buildAdvancedBins` of `routes/strategy`.  On integer bin indices the
source's `Number.isFinite` filter clause is identically true and `Math.trunc`
is the identity, so the sanitising step reduces to the `bin >= 0` filter. -/
def buildAdvancedBins (kind : AdvancedKind) (baseIndex : Int) : List Int :=
  let coreBins := advancedCoreBins kind baseIndex
  let sanitized := coreBins.filter (fun bin => 0 ≤ bin)
  let unique := jsSetDedup sanitized
  let unique2 := if unique = [] then [max 0 baseIndex] else unique
  unique2.insertionSort (· ≤ ·)

/-! ### Backtest simulator (`apps/web/src/app/analytics/page.tsx`) -/

/-- Type `CandleRow` of the analytics page. -/
structure CandleRow where
  t : ℚ
  o : ℚ
  h : ℚ
  l : ℚ
  c : ℚ
deriving Repr, DecidableEq

/-- Constant `FEE_PER_EXIT = 0.0002` (2 bps). -/
def FEE_PER_EXIT : ℚ := 2 / 10000

/-- Rounding `Number(x.toFixed(n))`: round to `n` decimal places (half away from
zero; all rounded quantities in the source are positive, where this is
round-half-up, i.e. Mathlib's `round`). -/
def roundTo (n : ℕ) (q : ℚ) : ℚ := (round (q * 10 ^ n) : ℚ) / 10 ^ n

/-- Function `toMillis` of the analytics page: treat the raw timestamp as already in
milliseconds when it exceeds `10^12`, otherwise scale from seconds. -/
def toMillis (rawTimestamp : ℚ) : ℚ :=
  if rawTimestamp > 1000000000000 then rawTimestamp else rawTimestamp * 1000

/-- The `toBand` closure of `runBacktest`. -/
def toBand ( ratio price : ℚ) : ℚ × ℚ := (price * (1 - ratio), price * (1 + ratio))

/-- The mutable accumulator of `runBacktest`'s loop.  `lastExitTs = none`
models the initial `-Infinity` (every finite timestamp passes the cooldown
test against it). -/
structure BacktestState where
  equity : ℚ
  exits : ℕ
  lastExitTs : Option ℚ
  bandLower : ℚ
  bandUpper : ℚ
  series : List (ℚ × ℚ)
deriving Repr, DecidableEq

/-- Predicate `canExit = row.t >= lastExitTs + cooldownSec * 1000`. -/
def canExit (cooldownSec : ℚ) (lastExitTs : Option ℚ) (t : ℚ) : Bool :=
  match lastExitTs with
  | none => true
  | some ts => decide (t ≥ ts + cooldownSec * 1000)

/-- One iteration of `runBacktest`'s candle loop.  The `Number.isFinite`
skip-guard of the source is identically true in the rational model and is
omitted (candles with NaN or infinite fields are outside the model). -/
def backtestStep ( ratio cooldownSec : ℚ) (s : BacktestState) (row : CandleRow) :
    BacktestState :=
  let ce := canExit cooldownSec s.lastExitTs row.t
  let hitUpper := decide (row.h > s.bandUpper)
  let hitLower := decide (row.l < s.bandLower)
  let s1 :=
    if ce && (hitUpper || hitLower) then
      let band := toBand ratio row.c
      { s with exits := s.exits + 1
               lastExitTs := some row.t
               equity := s.equity + s.equity * FEE_PER_EXIT
               bandLower := band.1
               bandUpper := band.2 }
    else s
  { s1 with series := s1.series ++ [(row.t, roundTo 6 s1.equity)] }

/-- The loop's initial state: `equity = 1`, `exits = 0`,
`lastExitTs = -Infinity`, band centred on `rows[0]?.c ?? 1`. -/
def backtestInit ( ratio : ℚ) (rows : List CandleRow) : BacktestState :=
  let firstClose := match rows with
    | [] => 1
    | r :: _ => r.c
  let band := toBand ratio firstClose
  { equity := 1
    exits := 0
    lastExitTs := none
    bandLower := band.1
    bandUpper := band.2
    series := [] }

/-- Loop of `runBacktest` as a fold, returning the final accumulator. -/
def runBacktestState (rows : List CandleRow) (bandBps cooldownSec : ℚ) :
    BacktestState :=
  let ratio := bandBps / 10000
  rows.foldl (backtestStep ratio cooldownSec) (backtestInit ratio rows)

/-- Type `BacktestResult` of the analytics page. -/
structure BacktestResult where
  equitySeries : List (ℚ × ℚ)
  exits : ℕ
  totalFeesPct : ℚ
  finalEquity : ℚ
deriving Repr, DecidableEq

/-- Function `runBacktest` of the analytics page. -/
def runBacktest (rows : List CandleRow) (bandBps cooldownSec : ℚ) :
    BacktestResult :=
  let s := runBacktestState rows bandBps cooldownSec
  { equitySeries := s.series
    exits := s.exits
    totalFeesPct := roundTo 4 (if s.equity > 0 then (s.equity - 1) * 100 else 0)
    finalEquity := roundTo 6 s.equity }

/-! ### CSV upload (`handleCsvUpload` of the analytics page) -/

/-- A cell of a parsed CSV row after PapaParse's `dynamicTyping`. `num` is a
finite numeric cell, `nonfinite` a numeric cell failing `Number.isFinite`
(NaN/Infinity), `str` a string cell, `absent` a missing field or a value of
any other type. -/
inductive CsvValue where
  | num (q : ℚ)
  | nonfinite
  | str (s : String)
  | absent
deriving Repr, DecidableEq

/-- Function `toNumber` of the analytics page, parameterised over JavaScript's
`Number(string)` coercion restricted to finite results (`strToNum s = none`
when `Number(s)` is NaN or infinite). -/
def toNumber (strToNum : String → Option ℚ) : CsvValue → Option ℚ
  | .num q => some q
  | .nonfinite => none
  | .str s => if s.trim.length > 0 then strToNum s else none
  | .absent => none

/-- A data row of the parsed CSV: the five required cells
(`timestamp, open, high, low, close`, named `timestamp o h l c` here since
`open` is reserved in Lean; other columns are irrelevant to the parse). -/
structure CsvDataRow where
  timestamp : CsvValue
  o : CsvValue
  h : CsvValue
  l : CsvValue
  c : CsvValue
deriving Repr, DecidableEq

/-- Constant `REQUIRED_HEADERS` of the analytics page. -/
def REQUIRED_HEADERS : List String := ["timestamp", "open", "high", "low", "close"]

/-- Per-row conversion: all five `toNumber` calls of the row loop; `none`
when any required field is missing or non-numeric (the loop then aborts). -/
def parseRow (strToNum : String → Option ℚ) (row : CsvDataRow) :
    Option CandleRow :=
  match toNumber strToNum row.timestamp, toNumber strToNum row.o,
        toNumber strToNum row.h, toNumber strToNum row.l,
        toNumber strToNum row.c with
  | some ts, some o2, some h2, some l2, some c2 =>
      some { t := toMillis ts, o := o2, h := h2, l := l2, c := c2 }
  | _, _, _, _, _ => none

/-- The `empty row` toast message for 0-based data row `i` (reported as
spreadsheet row `i + 2`, as in the source). -/
def emptyRowMsg (i : ℕ) : String :=
  s!"Malformed CSV: empty row encountered (row {i + 2})"

/-- The `numeric values required` toast message for 0-based data row `i`. -/
def badNumberMsg (i : ℕ) : String :=
  s!"Malformed CSV: numeric values required (row {i + 2})"

/-- The row loop of `handleCsvUpload`'s `complete` callback: build the
candle list, aborting with the appropriate message at the first empty row
(`results.data[index]` falsy) or first row with a missing/non-numeric
required field. -/
def parseRowLoop (strToNum : String → Option ℚ) (index : ℕ) :
    List (Option CsvDataRow) → Except String (List CandleRow)
  | [] => .ok []
  | r :: rest =>
    match r with
    | none => .error (emptyRowMsg index)
    | some row =>
      match parseRow strToNum row with
      | none => .error (badNumberMsg index)
      | some candle =>
        match parseRowLoop strToNum (index + 1) rest with
        | .error msg => .error msg
        | .ok others => .ok (candle :: others)

/-- The `missing columns` toast message for a given header list. -/
def missingColumnsMsg (fields : List String) : String :=
  let missingHeaders := REQUIRED_HEADERS.filter (fun h2 => decide (h2 ∉ fields))
  let joined := String.intercalate (", ") missingHeaders
  s!"Malformed CSV: missing columns {joined}"

/-- The `complete` callback of `handleCsvUpload` as a function from the
PapaParse output (internal parse errors, header fields, data rows) to either
the accepted candle list or the toast error message; on error the accepted
list (`backtestRows`) is reset to `[]`, which `Except.error` models. -/
def handleCsvUpload (strToNum : String → Option ℚ) (papaErrors : List String)
    (fields : List String) (data : List (Option CsvDataRow)) :
    Except String (List CandleRow) :=
  match papaErrors with
  | e :: _ => .error s!"Malformed CSV: {e}"
  | [] =>
    let missingHeaders := REQUIRED_HEADERS.filter (fun h2 => decide (h2 ∉ fields))
    if missingHeaders ≠ [] then .error (missingColumnsMsg fields)
    else
      match parseRowLoop strToNum 0 data with
      | .error msg => .error msg
      | .ok parsed =>
          if parsed = [] then .error ("Malformed CSV: no valid rows found.")
          else .ok parsed

/-- Whether a data row survives the row loop: present and with all five
required fields numeric. -/
def rowOk (strToNum : String → Option ℚ) : Option CsvDataRow → Bool
  | none => false
  | some row => (parseRow strToNum row).isSome

/-- The message the row loop reports when it aborts at 0-based row `i`. -/
def rowFailMsg (i : ℕ) : Option CsvDataRow → String
  | none => emptyRowMsg i
  | some _ => badNumberMsg i

/-! ### Helper lemmas -/

/-- The `ProblemDetail` produced by `mapResult` for a failed gateway call with a
given context title. -/
def problemFor (title e : String) (d : Option String) : ProblemDetail :=
  { type := defaultProblemType
    title := title
    status := (statusByError e).getD 500
    detail := d
    code := some e }

theorem mem_jsSetDedupAux (x : Int) (l : List Int) :
    ∀ acc, x ∈ jsSetDedupAux acc l ↔ x ∈ acc ∨ x ∈ l := by
  induction l with
  | nil => intro acc; simp [jsSetDedupAux]
  | cons b rest ih =>
    intro acc
    simp only [jsSetDedupAux]
    by_cases hb : b ∈ acc
    · rw [if_pos hb, ih]
      constructor
      · rintro (h | h)
        · exact Or.inl h
        · exact Or.inr (List.mem_cons_of_mem _ h)
      · rintro (h | h)
        · exact Or.inl h
        · rcases List.mem_cons.mp h with h | h
          · exact Or.inl (h ▸ hb)
          · exact Or.inr h
    · rw [if_neg hb, ih]
      simp only [List.mem_append, List.mem_singleton, List.mem_cons]
      tauto

theorem nodup_jsSetDedupAux (l : List Int) :
    ∀ acc, acc.Nodup → (jsSetDedupAux acc l).Nodup := by
  induction l with
  | nil => intro acc h; exact h
  | cons b rest ih =>
    intro acc h
    simp only [jsSetDedupAux]
    by_cases hb : b ∈ acc
    · rw [if_pos hb]; exact ih acc h
    · rw [if_neg hb]
      refine ih _ ?_
      rw [List.nodup_append]
      refine ⟨h, List.nodup_singleton b, ?_⟩
      intro a ha hmem
      rw [List.mem_singleton] at hmem
      exact hb (hmem ▸ ha)

theorem mem_jsSetDedup (x : Int) (l : List Int) : x ∈ jsSetDedup l ↔ x ∈ l := by
  rw [jsSetDedup, mem_jsSetDedupAux]
  simp

theorem nodup_jsSetDedup (l : List Int) : (jsSetDedup l).Nodup :=
  nodup_jsSetDedupAux l [] List.nodup_nil

/-- Shape of `backtestStep` when the exit branch is taken. -/
theorem backtestStep_eq_exit ( ratio cooldownSec : ℚ) (s : BacktestState)
    (row : CandleRow)
    (hcond : (canExit cooldownSec s.lastExitTs row.t &&
      (decide (row.h > s.bandUpper) || decide (row.l < s.bandLower))) = true) :
    backtestStep ratio cooldownSec s row =
      { equity := s.equity + s.equity * FEE_PER_EXIT
        exits := s.exits + 1
        lastExitTs := some row.t
        bandLower := (toBand ratio row.c).1
        bandUpper := (toBand ratio row.c).2
        series := s.series ++
          [(row.t, roundTo 6 (s.equity + s.equity * FEE_PER_EXIT))] } := by
  simp [backtestStep, hcond]

/-- Shape of `backtestStep` when no exit fires. -/
theorem backtestStep_eq_noexit ( ratio cooldownSec : ℚ) (s : BacktestState)
    (row : CandleRow)
    (hcond : (canExit cooldownSec s.lastExitTs row.t &&
      (decide (row.h > s.bandUpper) || decide (row.l < s.bandLower))) = false) :
    backtestStep ratio cooldownSec s row =
      { s with series := s.series ++ [(row.t, roundTo 6 s.equity)] } := by
  simp [backtestStep, hcond]

/-- The equity accumulator always equals `(1 + FEE_PER_EXIT) ^ exits` along
the loop. -/
theorem foldl_equity_pow ( ratio cooldownSec : ℚ) (rows : List CandleRow) :
    ∀ s : BacktestState, s.equity = (1 + FEE_PER_EXIT) ^ s.exits →
      (rows.foldl (backtestStep ratio cooldownSec) s).equity =
        (1 + FEE_PER_EXIT) ^ (rows.foldl (backtestStep ratio cooldownSec) s).exits := by
  induction rows with
  | nil => intro s h; exact h
  | cons row rest ih =>
    intro s h
    rw [List.foldl_cons]
    apply ih
    cases hcond : (canExit cooldownSec s.lastExitTs row.t &&
        (decide (row.h > s.bandUpper) || decide (row.l < s.bandLower))) with
    | false => rw [backtestStep_eq_noexit ratio cooldownSec s row hcond]; exact h
    | true =>
      rw [backtestStep_eq_exit ratio cooldownSec s row hcond]
      show s.equity + s.equity * FEE_PER_EXIT = (1 + FEE_PER_EXIT) ^ (s.exits + 1)
      rw [h, pow_succ]
      ring

theorem roundTo_mono (n : ℕ) {a b : ℚ} (h : a ≤ b) : roundTo n a ≤ roundTo n b := by
  have hpow : (0 : ℚ) < 10 ^ n := by positivity
  have hr : round (a * 10 ^ n) ≤ round (b * 10 ^ n) := by
    rw [round_eq, round_eq]
    apply Int.floor_le_floor
    have := mul_le_mul_of_nonneg_right h (le_of_lt hpow)
    linarith
  unfold roundTo
  exact (div_le_div_iff_of_pos_right hpow).mpr (by exact_mod_cast hr)

theorem roundTo_one (n : ℕ) : roundTo n 1 = 1 := by
  unfold roundTo
  rw [one_mul, show ((10 : ℚ) ^ n) = ((10 ^ n : ℕ) : ℚ) by push_cast; ring,
    round_natCast]
  push_cast
  field_simp

theorem roundTo_zero (n : ℕ) : roundTo n 0 = 0 := by
  simp [roundTo]

/-- Invariant carried through the backtest loop for the monotonicity and
lower-bound claims. -/
def BacktestInv (s : BacktestState) : Prop :=
  1 ≤ s.equity ∧
  (∀ p ∈ s.series, p.2 ≤ roundTo 6 s.equity ∧ 1 ≤ p.2) ∧
  s.series.Pairwise (fun p q : ℚ × ℚ => p.2 ≤ q.2)

theorem backtestStep_inv ( ratio cooldownSec : ℚ) (s : BacktestState)
    (row : CandleRow) (h : BacktestInv s) :
    BacktestInv (backtestStep ratio cooldownSec s row) := by
  obtain ⟨he, hser, hpair⟩ := h
  cases hcond : (canExit cooldownSec s.lastExitTs row.t &&
      (decide (row.h > s.bandUpper) || decide (row.l < s.bandLower))) with
  | false =>
    rw [backtestStep_eq_noexit ratio cooldownSec s row hcond]
    refine ⟨he, ?_, ?_⟩
    · intro p hp
      rcases List.mem_append.mp hp with hp | hp
      · exact hser p hp
      · rw [List.mem_singleton] at hp
        subst hp
        exact ⟨le_refl _, (roundTo_one 6) ▸ roundTo_mono 6 he⟩
    · rw [List.pairwise_append]
      refine ⟨hpair, List.pairwise_singleton _ _, ?_⟩
      intro p hp q hq
      rw [List.mem_singleton] at hq
      subst hq
      exact (hser p hp).1
  | true =>
    rw [backtestStep_eq_exit ratio cooldownSec s row hcond]
    have hfee : (0 : ℚ) ≤ FEE_PER_EXIT := by norm_num [FEE_PER_EXIT]
    have hle : s.equity ≤ s.equity + s.equity * FEE_PER_EXIT := by
      have : (0 : ℚ) ≤ s.equity * FEE_PER_EXIT :=
        mul_nonneg (by linarith) hfee
      linarith
    have he2 : 1 ≤ s.equity + s.equity * FEE_PER_EXIT := le_trans he hle
    refine ⟨he2, ?_, ?_⟩
    · intro p hp
      rcases List.mem_append.mp hp with hp | hp
      · obtain ⟨h1, h2⟩ := hser p hp
        exact ⟨le_trans h1 (roundTo_mono 6 hle), h2⟩
      · rw [List.mem_singleton] at hp
        subst hp
        exact ⟨le_refl _, (roundTo_one 6) ▸ roundTo_mono 6 he2⟩
    · rw [List.pairwise_append]
      refine ⟨hpair, List.pairwise_singleton _ _, ?_⟩
      intro p hp q hq
      rw [List.mem_singleton] at hq
      subst hq
      exact le_trans (hser p hp).1 (roundTo_mono 6 hle)

theorem foldl_backtest_inv ( ratio cooldownSec : ℚ) (rows : List CandleRow) :
    ∀ s : BacktestState, BacktestInv s →
      BacktestInv (rows.foldl (backtestStep ratio cooldownSec) s) := by
  induction rows with
  | nil => intro s h; exact h
  | cons row rest ih =>
    intro s h
    rw [List.foldl_cons]
    exact ih _ (backtestStep_inv ratio cooldownSec s row h)

theorem parseRowLoop_ok_length (strToNum : String → Option ℚ) :
    ∀ (data : List (Option CsvDataRow)) (k : ℕ) (l : List CandleRow),
      parseRowLoop strToNum k data = .ok l → l.length = data.length := by
  intro data
  induction data with
  | nil =>
    intro k l h
    simp only [parseRowLoop] at h
    injection h with h
    subst h
    rfl
  | cons r rest ih =>
    intro k l h
    match r with
    | none => simp [parseRowLoop] at h
    | some row =>
      simp only [parseRowLoop] at h
      cases hrow : parseRow strToNum row with
      | none => rw [hrow] at h; simp at h
      | some candle =>
        rw [hrow] at h
        cases hrest : parseRowLoop strToNum (k + 1) rest with
        | error msg => rw [hrest] at h; simp at h
        | ok others =>
          rw [hrest] at h
          simp only [Except.ok.injEq] at h
          subst h
          simp [ih (k + 1) others hrest]

theorem parseRowLoop_first_bad (strToNum : String → Option ℚ) :
    ∀ (data : List (Option CsvDataRow)) (k i : ℕ) (hi : i < data.length),
      (∀ j (hj : j < i), rowOk strToNum (data.get ⟨j, lt_trans hj hi⟩) = true) →
      rowOk strToNum (data.get ⟨i, hi⟩) = false →
      parseRowLoop strToNum k data = .error (rowFailMsg (k + i) (data.get ⟨i, hi⟩)) := by
  intro data
  induction data with
  | nil => intro k i hi; exact absurd hi (by simp)
  | cons r rest ih =>
    intro k i hi hgood hbad
    match i with
    | 0 =>
      simp only [List.get] at hbad
      match r, hbad with
      | none, _ => simp [parseRowLoop, rowFailMsg, List.get]
      | some row, hbad =>
        simp only [rowOk, Option.isSome] at hbad
        match hrow : parseRow strToNum row with
        | some candle => rw [hrow] at hbad; exact absurd hbad (by simp)
        | none => simp [parseRowLoop, hrow, rowFailMsg, List.get]
    | i + 1 =>
      have h0 : rowOk strToNum r = true := hgood 0 (Nat.succ_pos i)
      match r, h0 with
      | some row, h0 =>
        simp only [rowOk, Option.isSome] at h0
        match hrow : parseRow strToNum row with
        | none => rw [hrow] at h0; exact absurd h0 (by simp)
        | some candle =>
          have hi2 : i < rest.length := Nat.lt_of_succ_lt_succ hi
          have hrec := ih (k + 1) i hi2
            (fun j hj => hgood (j + 1) (Nat.succ_lt_succ hj))
            hbad
          simp only [parseRowLoop, hrow, hrec]
          have : k + 1 + i = k + (i + 1) := by omega
          rw [this]
          rfl

/-- Any successful `computeTargetBins` result has its bins ordered, because
the record is built from `min`/`max` of the two boundary lookups. -/
theorem computeTargetBins_ok_le (priceToBin : String → ℚ → GwResult Int)
    (pool : String) (midPrice : ℚ) (bandBps : Int) (t : BandTarget)
    (hok : computeTargetBins priceToBin pool midPrice bandBps = .ok t) :
    t.binLower ≤ t.binUpper := by
  simp only [computeTargetBins] at hok
  split at hok
  · exact absurd hok (by simp)
  · split at hok
    · exact absurd hok (by simp)
    · split at hok
      · exact absurd hok (by simp)
      · simp only [Except.ok.injEq] at hok
        subst hok
        exact min_le_max

/-! ### Claim theorems -/

/-- C1: for every rebalance planning call with `midPrice > 0` and integer
`bandBps ∈ [1, 10000]`, whenever all three `priceToBinIndex` lookups succeed
the returned target satisfies `binLower ≤ binUpper`, for any (even
non-monotonic or inverted) price-to-bin mapping. -/
theorem C1_computeTargetBins_ordered (priceToBin : String → ℚ → GwResult Int)
    (pool : String) (midPrice : ℚ) (bandBps : Int) (t : BandTarget)
    (hmid : 0 < midPrice) (hlo : 1 ≤ bandBps) (hhi : bandBps ≤ 10000)
    (hok : computeTargetBins priceToBin pool midPrice bandBps = .ok t) :
    t.binLower ≤ t.binUpper :=
  computeTargetBins_ok_le priceToBin pool midPrice bandBps t hok

theorem C1_witness :
    (0 : ℚ) < 1 ∧ (⟨0, 0, 0⟩ : BandTarget).binLower ≤ (⟨0, 0, 0⟩ : BandTarget).binUpper :=
  ⟨by norm_num,
    C1_computeTargetBins_ordered (fun _ _ => .ok 0) "pool" 1 100 ⟨0, 0, 0⟩
      (by norm_num) (by norm_num) (by norm_num) rfl⟩

/-- C2: in every successful `POST /rebalance/plan` response, `inBand` is true
iff the current bin index lies in the inclusive range
`[binLower, binUpper]`; in particular it is true when the current bin equals
either boundary. -/
theorem C2_rebalancePlan_inBand_iff (gwMidPrice : String → GwResult ℚ)
    (priceToBin : String → ℚ → GwResult Int) (pool : String) (bandBps : Int)
    (resp : PlanResponse)
    (hok : rebalancePlan gwMidPrice priceToBin pool bandBps = .ok resp) :
    (resp.inBand = true ↔
      resp.binLower ≤ resp.binIndex ∧ resp.binIndex ≤ resp.binUpper) ∧
    (resp.binIndex = resp.binLower → resp.inBand = true) ∧
    (resp.binIndex = resp.binUpper → resp.inBand = true) := by
  simp only [rebalancePlan] at hok
  split at hok
  · exact absurd hok (by simp)
  · rename_i midPrice hmid
    split at hok
    · exact absurd hok (by simp)
    · rename_i band hband
      simp only [Except.ok.injEq] at hok
      subst hok
      have hminmax : band.binLower ≤ band.binUpper :=
        computeTargetBins_ok_le priceToBin pool midPrice bandBps band hband
      refine ⟨?_, ?_, ?_⟩
      · show (decide (band.currentBin ≥ band.binLower) &&
            decide (band.currentBin ≤ band.binUpper)) = true ↔
          band.binLower ≤ band.currentBin ∧ band.currentBin ≤ band.binUpper
        simp [Bool.and_eq_true, decide_eq_true_eq, ge_iff_le]
      · intro h
        have h' : band.currentBin = band.binLower := h
        show (decide (band.currentBin ≥ band.binLower) &&
            decide (band.currentBin ≤ band.binUpper)) = true
        have h1 : band.binLower ≤ band.currentBin := le_of_eq h'.symm
        have h2 : band.currentBin ≤ band.binUpper := le_trans (le_of_eq h') hminmax
        simp [ge_iff_le, h1, h2]
      · intro h
        have h' : band.currentBin = band.binUpper := h
        show (decide (band.currentBin ≥ band.binLower) &&
            decide (band.currentBin ≤ band.binUpper)) = true
        have h1 : band.binLower ≤ band.currentBin := hminmax.trans (le_of_eq h'.symm)
        have h2 : band.currentBin ≤ band.binUpper := le_of_eq h'
        simp [ge_iff_le, h1, h2]

theorem C2_witness :
    ((⟨true, 0, 0, 1, 0⟩ : PlanResponse).inBand = true ↔
      (⟨true, 0, 0, 1, 0⟩ : PlanResponse).binLower ≤
          (⟨true, 0, 0, 1, 0⟩ : PlanResponse).binIndex ∧
        (⟨true, 0, 0, 1, 0⟩ : PlanResponse).binIndex ≤
          (⟨true, 0, 0, 1, 0⟩ : PlanResponse).binUpper) ∧
    ((⟨true, 0, 0, 1, 0⟩ : PlanResponse).binIndex =
        (⟨true, 0, 0, 1, 0⟩ : PlanResponse).binLower →
      (⟨true, 0, 0, 1, 0⟩ : PlanResponse).inBand = true) ∧
    ((⟨true, 0, 0, 1, 0⟩ : PlanResponse).binIndex =
        (⟨true, 0, 0, 1, 0⟩ : PlanResponse).binUpper →
      (⟨true, 0, 0, 1, 0⟩ : PlanResponse).inBand = true) :=
  C2_rebalancePlan_inBand_iff (fun _ => .ok 1) (fun _ _ => .ok 0) "pool" 100
    ⟨true, 0, 0, 1, 0⟩ rfl

/-- C3: for every advanced-order kind and every integer base bin index, the
bin selection returns a non-empty, duplicate-free, ascending-sorted list of
non-negative bins; when the non-negativity filter empties the candidate set
the result is the single bin `max 0 baseIndex`. -/
theorem C3_buildAdvancedBins_sound (kind : AdvancedKind) (baseIndex : Int) :
    buildAdvancedBins kind baseIndex ≠ [] ∧
    (buildAdvancedBins kind baseIndex).Nodup ∧
    List.Sorted (· ≤ ·) (buildAdvancedBins kind baseIndex) ∧
    (∀ b ∈ buildAdvancedBins kind baseIndex, 0 ≤ b) ∧
    ((advancedCoreBins kind baseIndex).filter (fun bin => 0 ≤ bin) = [] →
      buildAdvancedBins kind baseIndex = [max 0 baseIndex]) := by
  by_cases hcase :
    jsSetDedup ((advancedCoreBins kind baseIndex).filter (fun bin => 0 ≤ bin)) = []
  · have hbuild : buildAdvancedBins kind baseIndex = [max 0 baseIndex] := by
      simp only [buildAdvancedBins]
      rw [hcase, if_pos rfl]
      rfl
    rw [hbuild]
    refine ⟨by simp, List.nodup_singleton _, List.sorted_singleton _, ?_, fun _ => rfl⟩
    intro b hb
    rw [List.mem_singleton] at hb
    subst hb
    exact le_max_left 0 baseIndex
  · have hbuild : buildAdvancedBins kind baseIndex =
        (jsSetDedup ((advancedCoreBins kind baseIndex).filter
          (fun bin => 0 ≤ bin))).insertionSort (· ≤ ·) := by
      simp only [buildAdvancedBins]
      rw [if_neg hcase]
    have hperm := List.perm_insertionSort (· ≤ ·)
      (jsSetDedup ((advancedCoreBins kind baseIndex).filter (fun bin => 0 ≤ bin)))
    refine ⟨?_, ?_, ?_, ?_, ?_⟩
    · rw [hbuild]
      intro hc
      exact hcase (List.perm_nil.mp (hc ▸ hperm).symm)
    · rw [hbuild]
      exact (hperm.nodup_iff).mpr (nodup_jsSetDedup _)
    · rw [hbuild]
      exact List.sorted_insertionSort _ _
    · intro b hb
      rw [hbuild] at hb
      have hmem := hperm.mem_iff.mp hb
      rw [mem_jsSetDedup] at hmem
      exact of_decide_eq_true (List.mem_filter.mp hmem).2
    · intro hf
      rw [hf] at hcase
      exact absurd rfl hcase

theorem C3_witness : buildAdvancedBins AdvancedKind.limitBuy (-5) = [max 0 (-5)] :=
  (C3_buildAdvancedBins_sound AdvancedKind.limitBuy (-5)).2.2.2.2 (by decide)

/-- C8 counterexample: the boundary value `10^12` IS normalized by
`toMillis` (the source keeps the raw value only when it is strictly greater
than `10^12`), contradicting the claim that `10^12` is left unchanged. -/
theorem C8_counterexample : toMillis 1000000000000 ≠ 1000000000000 := by
  unfold toMillis
  rw [if_neg (lt_irrefl (1000000000000 : ℚ))]
  norm_num

/-- C8 (amended): the stored candle time is `v * 1000` when `v ≤ 10^12` and
`v` unchanged when `v > 10^12`; in particular the boundary value `10^12`
itself IS normalized. -/
theorem C8_toMillis_boundary (v : ℚ) :
    (v ≤ 1000000000000 → toMillis v = v * 1000) ∧
    (1000000000000 < v → toMillis v = v) := by
  constructor
  · intro h
    unfold toMillis
    rw [if_neg (not_lt.mpr h)]
  · intro h
    unfold toMillis
    rw [if_pos h]

theorem C8_witness :
    toMillis 5 = 5 * 1000 ∧ toMillis 2000000000000 = 2000000000000 :=
  ⟨(C8_toMillis_boundary 5).1 (by norm_num),
    (C8_toMillis_boundary 2000000000000).2 (by norm_num)⟩

/-- C9 counterexample: when the bin lookup fails with the gateway kind
`RpcError`, band planning surfaces exactly that kind (mapped to HTTP 502),
not an `UpstreamUnavailable` kind — no such kind exists in the code. -/
theorem C9_counterexample :
    computeTargetBins (fun _ _ => GwResult.err ("RpcError") (some ("connection refused")))
        "pool" 1 100 =
      .error { type := defaultProblemType
               title := "Failed to determine active bin"
               status := 502
               detail := some ("connection refused")
               code := some ("RpcError") } ∧
    (some ("RpcError") : Option String) ≠ some ("UpstreamUnavailable") :=
  ⟨rfl, by decide⟩

/-- C9 (amended): if any price-fetch or price-to-bin gateway call fails
during band planning, the planning operation fails with a problem carrying
the gateway's own error kind and detail unchanged (status mapped via
`statusByError`, 502 for `RpcError`/`SdkError`), with no retry and no
partial band result. -/
theorem C9_error_propagation (f : String → ℚ → GwResult Int)
    (gwMidPrice : String → GwResult ℚ) (pool : String) (midPrice : ℚ)
    (bandBps : Int) (e : String) (d : Option String) :
    (f pool midPrice = .err e d →
      computeTargetBins f pool midPrice bandBps =
        .error (problemFor ("Failed to determine active bin") e d)) ∧
    (∀ cb, f pool midPrice = .ok cb →
      f pool (midPrice * (1 - (bandBps : ℚ) / 10000)) = .err e d →
      computeTargetBins f pool midPrice bandBps =
        .error (problemFor ("Failed to compute lower band bin") e d)) ∧
    (∀ cb lb, f pool midPrice = .ok cb →
      f pool (midPrice * (1 - (bandBps : ℚ) / 10000)) = .ok lb →
      f pool (midPrice * (1 + (bandBps : ℚ) / 10000)) = .err e d →
      computeTargetBins f pool midPrice bandBps =
        .error (problemFor ("Failed to compute upper band bin") e d)) ∧
    (gwMidPrice pool = .err e d →
      rebalancePlan gwMidPrice f pool bandBps =
        .error (problemFor ("Failed to fetch mid price") e d)) := by
  refine ⟨?_, ?_, ?_, ?_⟩
  · intro h
    simp [computeTargetBins, mapResult, h, problemFor]
  · intro cb h1 h2
    simp [computeTargetBins, mapResult, h1, h2, problemFor]
  · intro cb lb h1 h2 h3
    simp [computeTargetBins, mapResult, h1, h2, h3, problemFor]
  · intro h
    simp [rebalancePlan, mapResult, h, problemFor]

theorem C9_witness :
    computeTargetBins (fun _ _ => GwResult.err ("SdkError") none) "p" 1 50 =
      .error (problemFor ("Failed to determine active bin") ("SdkError") none) :=
  (C9_error_propagation (fun _ _ => GwResult.err ("SdkError") none)
    (fun _ => GwResult.err ("SdkError") none) ("p") 1 50 ("SdkError") none).1 rfl

/-- C4: if a candle exits (band breach with the cooldown satisfied) and the
next candle lies within `cooldownSec` seconds of it, the pair produces
exactly one exit — the second breach is suppressed because an exit requires
`candle.t ≥ lastExitTimestamp + cooldownSec * 1000`. -/
theorem C4_cooldown_single_exit ( ratio cooldownSec : ℚ) (s : BacktestState)
    (c1 c2 : CandleRow)
    (hce : canExit cooldownSec s.lastExitTs c1.t = true)
    (hbreach1 : c1.h > s.bandUpper ∨ c1.l < s.bandLower)
    (hbreach2 : c2.h > (backtestStep ratio cooldownSec s c1).bandUpper ∨
      c2.l < (backtestStep ratio cooldownSec s c1).bandLower)
    (hcool : c2.t < c1.t + cooldownSec * 1000) :
    (backtestStep ratio cooldownSec (backtestStep ratio cooldownSec s c1) c2).exits =
      s.exits + 1 := by
  have hcond1 : (canExit cooldownSec s.lastExitTs c1.t &&
      (decide (c1.h > s.bandUpper) || decide (c1.l < s.bandLower))) = true := by
    rw [hce, Bool.true_and, Bool.or_eq_true, decide_eq_true_eq, decide_eq_true_eq]
    exact hbreach1
  rw [backtestStep_eq_exit ratio cooldownSec s c1 hcond1]
  have hce2 : canExit cooldownSec (some c1.t) c2.t = false := by
    simp only [canExit, decide_eq_false_iff_not, ge_iff_le, not_le]
    exact hcool
  rw [backtestStep_eq_noexit _ _ _ _ (by simp [hce2])]

theorem C4_witness :
    (backtestStep (1 / 100) 900
        (backtestStep (1 / 100) 900
          ⟨1, 0, none, 99 / 100, 101 / 100, []⟩ ⟨0, 1, 2, 1, 1⟩)
        ⟨1000, 1, 3, 1, 1⟩).exits = 0 + 1 := by
  refine C4_cooldown_single_exit (1 / 100) 900 ⟨1, 0, none, 99 / 100, 101 / 100, []⟩
    ⟨0, 1, 2, 1, 1⟩ ⟨1000, 1, 3, 1, 1⟩ rfl
    (Or.inl (show (2 : ℚ) > 101 / 100 by norm_num)) ?_
    (show (1000 : ℚ) < 0 + 900 * 1000 by norm_num)
  rw [backtestStep_eq_exit _ _ _ _
    (by norm_num [canExit, Bool.and_eq_true, Bool.or_eq_true, decide_eq_true_eq])]
  exact Or.inl (show (3 : ℚ) > (toBand (1 / 100) 1).2 by norm_num [toBand])

/-- C5: after `n` recorded exits the equity accumulator equals
`(1 + FEE_PER_EXIT) ^ n` exactly (each exit multiplies equity by
`1 + FEE_PER_EXIT`, starting from 1), and the reported `finalEquity` is that
value rounded to 6 decimal places. -/
theorem C5_fee_compounding (rows : List CandleRow) (bandBps cooldownSec : ℚ)
    (n : ℕ) (hn : (runBacktest rows bandBps cooldownSec).exits = n) :
    (runBacktestState rows bandBps cooldownSec).equity = (1 + FEE_PER_EXIT) ^ n ∧
    (runBacktest rows bandBps cooldownSec).finalEquity =
      roundTo 6 ((1 + FEE_PER_EXIT) ^ n) := by
  have hunfold : runBacktestState rows bandBps cooldownSec =
      rows.foldl (backtestStep (bandBps / 10000) cooldownSec)
        (backtestInit (bandBps / 10000) rows) := rfl
  have hinit : (backtestInit (bandBps / 10000) rows).equity =
      (1 + FEE_PER_EXIT) ^ (backtestInit (bandBps / 10000) rows).exits := by
    show (1 : ℚ) = (1 + FEE_PER_EXIT) ^ 0
    rw [pow_zero]
  have hstate := foldl_equity_pow (bandBps / 10000) cooldownSec rows _ hinit
  rw [← hunfold] at hstate
  have hexits : (runBacktestState rows bandBps cooldownSec).exits = n := by
    rw [← hn]
    rfl
  constructor
  · rw [hstate, hexits]
  · show roundTo 6 (runBacktestState rows bandBps cooldownSec).equity = _
    rw [hstate, hexits]

theorem C5_witness :
    (runBacktestState [] 100 900).equity = (1 + FEE_PER_EXIT) ^ 0 ∧
    (runBacktest [] 100 900).finalEquity = roundTo 6 ((1 + FEE_PER_EXIT) ^ 0) :=
  C5_fee_compounding [] 100 900 0 rfl

/-- C6: `runBacktest` is a pure function of its arguments — two invocations
with equal candle rows, equal `bandBps` and equal `cooldownSec` yield equal
equity series, exit counts, total fees and final equity. -/
theorem C6_backtest_deterministic (rows rows2 : List CandleRow)
    (bandBps bandBps2 cooldownSec cooldownSec2 : ℚ)
    (hrows : rows = rows2) (hband : bandBps = bandBps2)
    (hcool : cooldownSec = cooldownSec2) :
    (runBacktest rows bandBps cooldownSec).equitySeries =
      (runBacktest rows2 bandBps2 cooldownSec2).equitySeries ∧
    (runBacktest rows bandBps cooldownSec).exits =
      (runBacktest rows2 bandBps2 cooldownSec2).exits ∧
    (runBacktest rows bandBps cooldownSec).totalFeesPct =
      (runBacktest rows2 bandBps2 cooldownSec2).totalFeesPct ∧
    (runBacktest rows bandBps cooldownSec).finalEquity =
      (runBacktest rows2 bandBps2 cooldownSec2).finalEquity := by
  subst hrows hband hcool
  exact ⟨rfl, rfl, rfl, rfl⟩

theorem C6_witness :
    (runBacktest [] 100 900).equitySeries = (runBacktest [] 100 900).equitySeries ∧
    (runBacktest [] 100 900).exits = (runBacktest [] 100 900).exits ∧
    (runBacktest [] 100 900).totalFeesPct = (runBacktest [] 100 900).totalFeesPct ∧
    (runBacktest [] 100 900).finalEquity = (runBacktest [] 100 900).finalEquity :=
  C6_backtest_deterministic [] [] 100 100 900 900 rfl rfl rfl

/-- C10: the recorded equity series is monotonically non-decreasing in input
order and every recorded value is at least 1 (equity starts at 1 and is only
ever multiplied by `1 + FEE_PER_EXIT > 1`); consequently `totalFeesPct` and
`finalEquity` are never negative. -/
theorem C10_equity_monotone_nonneg (rows : List CandleRow)
    (bandBps cooldownSec : ℚ) :
    (runBacktest rows bandBps cooldownSec).equitySeries.Pairwise
      (fun p q : ℚ × ℚ => p.2 ≤ q.2) ∧
    (∀ p ∈ (runBacktest rows bandBps cooldownSec).equitySeries, 1 ≤ p.2) ∧
    0 ≤ (runBacktest rows bandBps cooldownSec).totalFeesPct ∧
    0 ≤ (runBacktest rows bandBps cooldownSec).finalEquity := by
  have hinit : BacktestInv (backtestInit (bandBps / 10000) rows) := by
    refine ⟨le_refl 1, ?_, ?_⟩
    · intro p hp
      simp [backtestInit] at hp
    · show List.Pairwise _ ([] : List (ℚ × ℚ))
      exact List.Pairwise.nil
  have hfold := foldl_backtest_inv (bandBps / 10000) cooldownSec rows _ hinit
  have hunfold : runBacktestState rows bandBps cooldownSec =
      rows.foldl (backtestStep (bandBps / 10000) cooldownSec)
        (backtestInit (bandBps / 10000) rows) := rfl
  rw [← hunfold] at hfold
  obtain ⟨he, hser, hpair⟩ := hfold
  have hpos : (0 : ℚ) < (runBacktestState rows bandBps cooldownSec).equity :=
    lt_of_lt_of_le one_pos he
  refine ⟨hpair, ?_, ?_, ?_⟩
  · intro p hp
    exact (hser p hp).2
  · show 0 ≤ roundTo 4 (if (runBacktestState rows bandBps cooldownSec).equity > 0
      then ((runBacktestState rows bandBps cooldownSec).equity - 1) * 100 else 0)
    rw [if_pos hpos]
    have h0 : (0 : ℚ) ≤ ((runBacktestState rows bandBps cooldownSec).equity - 1) * 100 := by
      nlinarith
    calc (0 : ℚ) = roundTo 4 0 := (roundTo_zero 4).symm
    _ ≤ _ := roundTo_mono 4 h0
  · show 0 ≤ roundTo 6 (runBacktestState rows bandBps cooldownSec).equity
    have h1 : (1 : ℚ) ≤ roundTo 6 (runBacktestState rows bandBps cooldownSec).equity := by
      calc (1 : ℚ) = roundTo 6 1 := (roundTo_one 6).symm
      _ ≤ _ := roundTo_mono 6 he
    linarith

/-- C7: CSV parsing is atomic — a header missing any required column rejects
the upload before any candle is constructed (the same error regardless of
the data rows); the first empty or non-numeric row aborts the whole parse
with a message naming that row; and a successful parse accepts exactly one
candle per data row (never a partial prefix, never an empty list). -/
theorem C7_csv_atomic (strToNum : String → Option ℚ) (fields : List String)
    (data : List (Option CsvDataRow)) :
    ((∃ h2 ∈ REQUIRED_HEADERS, h2 ∉ fields) →
      handleCsvUpload strToNum [] fields data = .error (missingColumnsMsg fields) ∧
      ∀ data2, handleCsvUpload strToNum [] fields data =
        handleCsvUpload strToNum [] fields data2) ∧
    (∀ i (hi : i < data.length),
      (∀ h2 ∈ REQUIRED_HEADERS, h2 ∈ fields) →
      (∀ j (hj : j < i), rowOk strToNum (data.get ⟨j, lt_trans hj hi⟩) = true) →
      rowOk strToNum (data.get ⟨i, hi⟩) = false →
      handleCsvUpload strToNum [] fields data =
        .error (rowFailMsg i (data.get ⟨i, hi⟩))) ∧
    (∀ l, handleCsvUpload strToNum [] fields data = .ok l →
      l.length = data.length ∧ l ≠ []) := by
  refine ⟨?_, ?_, ?_⟩
  · intro hmissing
    have hne : REQUIRED_HEADERS.filter (fun h2 => decide (h2 ∉ fields)) ≠ [] := by
      obtain ⟨h2, hmem, hnot⟩ := hmissing
      intro hnil
      rw [List.filter_eq_nil_iff] at hnil
      exact hnil h2 hmem (decide_eq_true hnot)
    constructor
    · simp only [handleCsvUpload]
      rw [if_pos hne]
    · intro data2
      simp only [handleCsvUpload]
      rw [if_pos hne, if_pos hne]
  · intro i hi hheaders hgood hbad
    have hnil : REQUIRED_HEADERS.filter (fun h2 => decide (h2 ∉ fields)) = [] := by
      rw [List.filter_eq_nil_iff]
      intro a ha
      simp only [decide_eq_true_eq]
      exact not_not_intro (hheaders a ha)
    have hloop := parseRowLoop_first_bad strToNum data 0 i hi hgood hbad
    rw [Nat.zero_add] at hloop
    simp only [handleCsvUpload]
    rw [if_neg (fun hcon => hcon hnil), hloop]
  · intro l hl
    simp only [handleCsvUpload] at hl
    by_cases hcase : REQUIRED_HEADERS.filter (fun h2 => decide (h2 ∉ fields)) = []
    · rw [if_neg (fun hcon => hcon hcase)] at hl
      cases hloop : parseRowLoop strToNum 0 data with
      | error msg => rw [hloop] at hl; simp at hl
      | ok parsed =>
        rw [hloop] at hl
        have hl2 : (if parsed = [] then
              (Except.error ("Malformed CSV: no valid rows found.") :
                Except String (List CandleRow))
            else Except.ok parsed) = Except.ok l := hl
        by_cases hp : parsed = []
        · rw [if_pos hp] at hl2
          simp at hl2
        · rw [if_neg hp] at hl2
          simp only [Except.ok.injEq] at hl2
          subst hl2
          exact ⟨parseRowLoop_ok_length strToNum data 0 parsed hloop, hp⟩
    · rw [if_pos hcase] at hl
      simp at hl

theorem C7_witness :
    handleCsvUpload (fun _ => none) [] ["timestamp", "open", "high", "low"] [] =
      .error (missingColumnsMsg ["timestamp", "open", "high", "low"]) :=
  ((C7_csv_atomic (fun _ => none) ["timestamp", "open", "high", "low"] []).1
    ⟨"close", by decide, by decide⟩).1

end DLMM
